import Mathlib

/-!
Verification development for the `wasm-heap-manager` library.

The library gives typed access to a flat byte-addressable heap owned by an
external agent.  We shallowly embed the parts of `WasmHeapManager` (file
`src/WasmHeapManager.ts`), its reference classes, the cache-refresh logic, the
allocation gateway and the null-terminated string codec paths, and prove the
specification's claims about them.

Modelling conventions:
* The heap (`ArrayBuffer`) is a byte function together with a byte length.
  Typed-view element reads/writes (`heapInt16[address / 2]` and friends) are
  modelled at the byte level, little-endian, which is the host order the
  library assumes; the typed-view element index `address / w` corresponds to
  byte offset `address` when `w ∣ address`.
* JavaScript typed-array stores are silent no-ops out of bounds; element
  writes therefore carry an explicit bounds guard.  `subarray` clamps its
  bounds, which the span/fill definitions reproduce.
* `float32` / `float64` values are represented by their IEEE-754 bit
  patterns (a `Nat` below `2^32` / `2^64`).  The `IEEE754Converter` (file
  `src/utilities/IEEE754Converter.ts`), which moves a value between a float
  view and an unsigned view of one shared 4/8-byte buffer, is then the
  reduction of the pattern modulo the width.
* Atomic primitives (`Atomics.load` / `Atomics.store`) additionally return
  the list of native atomic operations they perform, so that claims about
  "exactly one native atomic operation" are about an explicit trace.
-/

/-- An `ArrayBuffer`/`SharedArrayBuffer`: bytes indexed by byte offset,
together with its byte length. -/
structure HeapBuffer where
  bytes : Nat → Nat
  byteLength : Nat

/-- Assemble a `w`-byte little-endian unsigned value starting at byte
offset `addr` (the element read of an unsigned typed view). -/
def readUintLE : Nat → Nat → HeapBuffer → Nat
  | 0, _, _ => 0
  | w + 1, addr, h => h.bytes addr + 256 * readUintLE w (addr + 1) h

/-- Store a `w`-byte little-endian unsigned value at byte offset `addr`
(the element write of an unsigned typed view; JavaScript coerces the stored
value modulo `2^(8*w)`, and an out-of-bounds typed-array store is a silent
no-op, hence the bounds guard). -/
def writeUintLE (w addr v : Nat) (h : HeapBuffer) : HeapBuffer :=
  if addr + w ≤ h.byteLength then
    { h with bytes := fun i => if addr ≤ i ∧ i < addr + w then v / 256 ^ (i - addr) % 256 else h.bytes i }
  else h

/-- The element read of a signed typed view: two's complement
reinterpretation of the unsigned assembly. -/
def readIntLE (w addr : Nat) (h : HeapBuffer) : Int :=
  let u := readUintLE w addr h
  if u < 2 ^ (8 * w - 1) then (u : Int) else (u : Int) - 2 ^ (8 * w)

/-- JavaScript's `ToIntN`/`ToUintN` coercion applied before a store into a
`w`-byte integer view: the value modulo `2^(8*w)`, as the unsigned bit
pattern. -/
def toUnsignedNat (w : Nat) (v : Int) : Nat :=
  (v % (2 ^ (8 * w))).toNat

theorem bytes_writeUintLE (w addr v : Nat) (h : HeapBuffer) (hle : addr + w ≤ h.byteLength) (i : Nat) :
    (writeUintLE w addr v h).bytes i =
      if addr ≤ i ∧ i < addr + w then v / 256 ^ (i - addr) % 256 else h.bytes i := by
  simp [writeUintLE, hle]

theorem byteLength_writeUintLE (w addr v : Nat) (h : HeapBuffer) :
    (writeUintLE w addr v h).byteLength = h.byteLength := by
  unfold writeUintLE
  split <;> rfl

theorem readUintLE_congr (w : Nat) : ∀ (addr : Nat) (h₁ h₂ : HeapBuffer),
    (∀ i, addr ≤ i → i < addr + w → h₁.bytes i = h₂.bytes i) →
    readUintLE w addr h₁ = readUintLE w addr h₂ := by
  induction w with
  | zero => intro addr h₁ h₂ _; rfl
  | succ n ih =>
    intro addr h₁ h₂ hagree
    unfold readUintLE
    rw [hagree addr (Nat.le_refl addr) (by omega),
      ih (addr + 1) h₁ h₂ (fun i hi₁ hi₂ => hagree i (by omega) (by omega))]

theorem readUintLE_lt (w : Nat) : ∀ (addr : Nat) (h : HeapBuffer),
    (∀ i, h.bytes i < 256) → readUintLE w addr h < 256 ^ w := by
  induction w with
  | zero => intro addr h _; simp [readUintLE]
  | succ n ih =>
    intro addr h hb
    have h1 := hb addr
    have h2 := ih (addr + 1) h hb
    unfold readUintLE
    calc h.bytes addr + 256 * readUintLE n (addr + 1) h
        ≤ 255 + 256 * (256 ^ n - 1) := by
          have : readUintLE n (addr + 1) h ≤ 256 ^ n - 1 := by omega
          omega
      _ < 256 ^ (n + 1) := by
          have : 0 < 256 ^ n := Nat.pos_pow_of_pos n (by omega)
          have : 256 ^ (n + 1) = 256 ^ n * 256 := by rw [Nat.pow_succ]
          omega

/-- Writing a `w`-byte little-endian value and assembling the same bytes
back yields the value modulo `2^(8*w)`. -/
theorem readUintLE_writeUintLE (w : Nat) : ∀ (addr v : Nat) (h : HeapBuffer),
    addr + w ≤ h.byteLength →
    readUintLE w addr (writeUintLE w addr v h) = v % 256 ^ w := by
  induction w with
  | zero => intro addr v h _; simp [readUintLE, Nat.mod_one]
  | succ n ih =>
    intro addr v h hle
    unfold readUintLE
    have hb : (writeUintLE (n + 1) addr v h).bytes addr = v % 256 := by
      rw [bytes_writeUintLE _ _ _ _ hle]
      simp
    have hrest : readUintLE n (addr + 1) (writeUintLE (n + 1) addr v h) =
        readUintLE n (addr + 1) (writeUintLE n (addr + 1) (v / 256) h) := by
      apply readUintLE_congr
      intro i hi₁ hi₂
      rw [bytes_writeUintLE _ _ _ _ hle i, bytes_writeUintLE _ _ _ _ (by omega) i]
      have hiaddr : addr ≤ i := by omega
      have hin : (addr ≤ i ∧ i < addr + (n + 1)) := by omega
      have hin' : (addr + 1 ≤ i ∧ i < addr + 1 + n) := by omega
      simp only [hin, hin', if_pos, and_self, if_true]
      have : i - addr = (i - (addr + 1)) + 1 := by omega
      rw [this, pow_succ, Nat.mul_comm, ← Nat.div_div_eq_div_mul]
    rw [hb, hrest, ih (addr + 1) (v / 256) h (by omega)]
    have hpow : 256 ^ (n + 1) = 256 * 256 ^ n := by
      rw [Nat.pow_succ, Nat.mul_comm]
    rw [hpow, Nat.mod_mul]

theorem writeUintLE_outside (w addr v : Nat) (h : HeapBuffer) (i : Nat)
    (hout : i < addr ∨ addr + w ≤ i) :
    (writeUintLE w addr v h).bytes i = h.bytes i := by
  unfold writeUintLE
  split
  · simp only
    have : ¬ (addr ≤ i ∧ i < addr + w) := by omega
    simp [this]
  · rfl

/-!
## Atomic access layer

`Atomics.load` / `Atomics.store` on an integer typed view are the platform's
native atomic primitives.  Every atomic manager method below returns, next to
its result, the list of native atomic operations it performed.
-/

/-- One native integer atomic operation: width in bytes, byte address of the
element, and for stores the (coerced) stored bit pattern. -/
inductive AtomicOp where
  | load (w addr : Nat)
  | store (w addr v : Nat)
deriving DecidableEq, Repr

/-- `Atomics.load` on the signed `w`-byte view at element byte offset
`addr` (the source passes `address / w` as the element index). -/
def atomicLoadSigned (w addr : Nat) (h : HeapBuffer) : Int × List AtomicOp :=
  (readIntLE w addr h, [AtomicOp.load w addr])

/-- `Atomics.load` on the unsigned `w`-byte view. -/
def atomicLoadUnsigned (w addr : Nat) (h : HeapBuffer) : Nat × List AtomicOp :=
  (readUintLE w addr h, [AtomicOp.load w addr])

/-- `Atomics.store` on a `w`-byte integer view; the stored value is coerced
to the element type's bit pattern before the native store. -/
def atomicStore (w addr : Nat) (v : Int) (h : HeapBuffer) : HeapBuffer × List AtomicOp :=
  (writeUintLE w addr (toUnsignedNat w v) h, [AtomicOp.store w addr (toUnsignedNat w v)])

/-- `WasmHeapManager.readUint8Atomic` (src/WasmHeapManager.ts line 173). -/
def readUint8Atomic (addr : Nat) (h : HeapBuffer) : Nat × List AtomicOp :=
  atomicLoadUnsigned 1 addr h

/-- `WasmHeapManager.writeUint8Atomic` (line 181). -/
def writeUint8Atomic (addr : Nat) (v : Int) (h : HeapBuffer) : HeapBuffer × List AtomicOp :=
  atomicStore 1 addr v h

/-- `WasmHeapManager.readUint8ClampedAtomic` (line 247): reuses the
unsigned-8 atomic load. -/
def readUint8ClampedAtomic (addr : Nat) (h : HeapBuffer) : Nat × List AtomicOp :=
  readUint8Atomic addr h

/-- The clamping performed by `writeUint8ClampedAtomic` (lines 256-260):
`if (value < 0) value = 0; else if (value > 255) value = 255`. -/
def clampToUint8 (v : Int) : Int :=
  if v < 0 then 0 else if v > 255 then 255 else v

/-- `WasmHeapManager.writeUint8ClampedAtomic` (lines 255-263): clamp into
`[0, 255]`, then perform the unsigned-8 atomic store. -/
def writeUint8ClampedAtomic (addr : Nat) (v : Int) (h : HeapBuffer) : HeapBuffer × List AtomicOp :=
  writeUint8Atomic addr (clampToUint8 v) h

/-- `WasmHeapManager.readUint32Atomic` (line 558). -/
def readUint32Atomic (addr : Nat) (h : HeapBuffer) : Nat × List AtomicOp :=
  atomicLoadUnsigned 4 addr h

/-- `WasmHeapManager.writeUint32Atomic` (line 566). -/
def writeUint32Atomic (addr : Nat) (v : Int) (h : HeapBuffer) : HeapBuffer × List AtomicOp :=
  atomicStore 4 addr v h

/-- `WasmHeapManager.readBigUint64Atomic` (line 712). -/
def readBigUint64Atomic (addr : Nat) (h : HeapBuffer) : Nat × List AtomicOp :=
  atomicLoadUnsigned 8 addr h

/-- `WasmHeapManager.writeBigUint64Atomic` (line 720). -/
def writeBigUint64Atomic (addr : Nat) (v : Int) (h : HeapBuffer) : HeapBuffer × List AtomicOp :=
  atomicStore 8 addr v h

/-- `IEEE754Converter.float32ToUint32`: with float32 values represented by
their bit patterns, the conversion is reduction modulo `2^32`. -/
def float32ToUint32 (v : Nat) : Nat := v % 2 ^ 32

/-- `IEEE754Converter.uint32ToFloat32`. -/
def uint32ToFloat32 (v : Nat) : Nat := v % 2 ^ 32

/-- `IEEE754Converter.float64ToBigUint64`. -/
def float64ToBigUint64 (v : Nat) : Nat := v % 2 ^ 64

/-- `IEEE754Converter.bigUint64ToFloat64`. -/
def bigUint64ToFloat64 (v : Nat) : Nat := v % 2 ^ 64

/-- `WasmHeapManager.readFloat32Atomic` (lines 789-794): a single uint32
atomic load, then bit reinterpretation back to float. -/
def readFloat32Atomic (addr : Nat) (h : HeapBuffer) : Nat × List AtomicOp :=
  let (uint32Value, ops) := readUint32Atomic addr h
  (uint32ToFloat32 uint32Value, ops)

/-- `WasmHeapManager.writeFloat32Atomic` (lines 800-805): reinterpret the
float's bit pattern as a uint32, then a single uint32 atomic store. -/
def writeFloat32Atomic (addr : Nat) (v : Nat) (h : HeapBuffer) : HeapBuffer × List AtomicOp :=
  writeUint32Atomic addr (float32ToUint32 v : Nat) h

/-- `WasmHeapManager.readFloat64Atomic` (lines 872-877). -/
def readFloat64Atomic (addr : Nat) (h : HeapBuffer) : Nat × List AtomicOp :=
  let (bitUint64Value, ops) := readBigUint64Atomic addr h
  (bigUint64ToFloat64 bitUint64Value, ops)

/-- `WasmHeapManager.writeFloat64Atomic` (lines 883-888). -/
def writeFloat64Atomic (addr : Nat) (v : Nat) (h : HeapBuffer) : HeapBuffer × List AtomicOp :=
  writeBigUint64Atomic addr (float64ToBigUint64 v : Nat) h

/-!
## Numeric kinds

The eleven numeric kinds of the heap view cache, with plain and atomic
read/write dispatchers mirroring the per-kind manager methods
(`readInt8`/`writeInt8` at lines 95-109 through
`readFloat64`/`writeFloat64Atomic` at lines 868-888).  Values are `Int`;
float values are their IEEE-754 bit patterns (non-negative).
-/

inductive NumKind where
  | int8 | uint8 | uint8Clamped | int16 | uint16
  | int32 | uint32 | int64 | uint64 | float32 | float64
deriving DecidableEq, Repr

/-- Element width in bytes. -/
def numWidth : NumKind → Nat
  | .int8 | .uint8 | .uint8Clamped => 1
  | .int16 | .uint16 => 2
  | .int32 | .uint32 | .float32 => 4
  | .int64 | .uint64 | .float64 => 8

/-- The values representable in a kind: the signed/unsigned `w`-byte
integer ranges, and for floats every bit pattern of the width. -/
def numRepresentable : NumKind → Int → Prop
  | .int8, v => -(2 ^ 7) ≤ v ∧ v < 2 ^ 7
  | .uint8, v => 0 ≤ v ∧ v < 2 ^ 8
  | .uint8Clamped, v => 0 ≤ v ∧ v < 2 ^ 8
  | .int16, v => -(2 ^ 15) ≤ v ∧ v < 2 ^ 15
  | .uint16, v => 0 ≤ v ∧ v < 2 ^ 16
  | .int32, v => -(2 ^ 31) ≤ v ∧ v < 2 ^ 31
  | .uint32, v => 0 ≤ v ∧ v < 2 ^ 32
  | .int64, v => -(2 ^ 63) ≤ v ∧ v < 2 ^ 63
  | .uint64, v => 0 ≤ v ∧ v < 2 ^ 64
  | .float32, v => 0 ≤ v ∧ v < 2 ^ 32
  | .float64, v => 0 ≤ v ∧ v < 2 ^ 64

instance (k : NumKind) (v : Int) : Decidable (numRepresentable k v) := by
  cases k <;> simp only [numRepresentable] <;> infer_instance

/-- Plain read of a numeric kind at byte offset `addr`
(`this.heapInt8[address]`, `this.heapInt16[address / 2]`, ...). -/
def readNum (k : NumKind) (addr : Nat) (h : HeapBuffer) : Int :=
  match k with
  | .int8 => readIntLE 1 addr h
  | .uint8 => (readUintLE 1 addr h : Int)
  | .uint8Clamped => (readUintLE 1 addr h : Int)
  | .int16 => readIntLE 2 addr h
  | .uint16 => (readUintLE 2 addr h : Int)
  | .int32 => readIntLE 4 addr h
  | .uint32 => (readUintLE 4 addr h : Int)
  | .int64 => readIntLE 8 addr h
  | .uint64 => (readUintLE 8 addr h : Int)
  | .float32 => (readUintLE 4 addr h : Int)
  | .float64 => (readUintLE 8 addr h : Int)

/-- Plain write of a numeric kind at byte offset `addr`.  Integer views
coerce the value (`ToIntN`/`ToUintN`); the clamped view clamps; float views
store the bit pattern. -/
def writeNum (k : NumKind) (addr : Nat) (v : Int) (h : HeapBuffer) : HeapBuffer :=
  match k with
  | .int8 => writeUintLE 1 addr (toUnsignedNat 1 v) h
  | .uint8 => writeUintLE 1 addr (toUnsignedNat 1 v) h
  | .uint8Clamped => writeUintLE 1 addr (toUnsignedNat 1 (clampToUint8 v)) h
  | .int16 => writeUintLE 2 addr (toUnsignedNat 2 v) h
  | .uint16 => writeUintLE 2 addr (toUnsignedNat 2 v) h
  | .int32 => writeUintLE 4 addr (toUnsignedNat 4 v) h
  | .uint32 => writeUintLE 4 addr (toUnsignedNat 4 v) h
  | .int64 => writeUintLE 8 addr (toUnsignedNat 8 v) h
  | .uint64 => writeUintLE 8 addr (toUnsignedNat 8 v) h
  | .float32 => writeUintLE 4 addr (toUnsignedNat 4 v) h
  | .float64 => writeUintLE 8 addr (toUnsignedNat 8 v) h

/-- Atomic read of a numeric kind (`readInt8Atomic`, ...,
`readFloat64Atomic`): integer kinds are one native atomic load; clamped
reuses the unsigned-8 load; floats load bits and reinterpret. -/
def readNumAtomic (k : NumKind) (addr : Nat) (h : HeapBuffer) : Int × List AtomicOp :=
  match k with
  | .int8 => atomicLoadSigned 1 addr h
  | .uint8 => let (v, ops) := readUint8Atomic addr h; ((v : Int), ops)
  | .uint8Clamped => let (v, ops) := readUint8ClampedAtomic addr h; ((v : Int), ops)
  | .int16 => atomicLoadSigned 2 addr h
  | .uint16 => let (v, ops) := atomicLoadUnsigned 2 addr h; ((v : Int), ops)
  | .int32 => atomicLoadSigned 4 addr h
  | .uint32 => let (v, ops) := readUint32Atomic addr h; ((v : Int), ops)
  | .int64 => atomicLoadSigned 8 addr h
  | .uint64 => let (v, ops) := readBigUint64Atomic addr h; ((v : Int), ops)
  | .float32 => let (v, ops) := readFloat32Atomic addr h; ((v : Int), ops)
  | .float64 => let (v, ops) := readFloat64Atomic addr h; ((v : Int), ops)

/-- Atomic write of a numeric kind (`writeInt8Atomic`, ...,
`writeFloat64Atomic`). -/
def writeNumAtomic (k : NumKind) (addr : Nat) (v : Int) (h : HeapBuffer) : HeapBuffer × List AtomicOp :=
  match k with
  | .int8 => atomicStore 1 addr v h
  | .uint8 => writeUint8Atomic addr v h
  | .uint8Clamped => writeUint8ClampedAtomic addr v h
  | .int16 => atomicStore 2 addr v h
  | .uint16 => atomicStore 2 addr v h
  | .int32 => atomicStore 4 addr v h
  | .uint32 => writeUint32Atomic addr v h
  | .int64 => atomicStore 8 addr v h
  | .uint64 => writeBigUint64Atomic addr v h
  | .float32 => writeFloat32Atomic addr v.toNat h
  | .float64 => writeFloat64Atomic addr v.toNat h

/-!
## Reference model

`HeapRef` (src/WasmHeapManager.ts lines 1700-1734) carries an address; the
state `Freed` is `address == 0`.  `WasmHeapManager.free` (lines 1562-1582)
either deallocates a raw address directly or, for a reference, checks
`isFreed`, calls the external `deallocate` capability with the current
address, and sets the address to the sentinel `0`.  The external
deallocator is modelled by the trace of addresses it was called with.
-/

inductive HeapError where
  | useAfterFree
  | capacityExceeded
  | nullTerminatorNotFound
  | invalidArgument
deriving DecidableEq, Repr

/-- The mutable state of a `HeapRef`: its address (0 = freed sentinel). -/
structure HeapRefState where
  address : Nat
deriving DecidableEq, Repr

/-- `HeapRef.isFreed` (line 1723). -/
def isFreed (ref : HeapRefState) : Bool :=
  ref.address = 0

/-- The raw-address overload of `WasmHeapManager.free` (lines 1565-1568):
call the external `deallocate` directly. -/
def managerFreeAddress (addr : Nat) (dealloc : List Nat) : List Nat :=
  dealloc ++ [addr]

/-- The reference overload of `WasmHeapManager.free` (lines 1569-1578):
no-op when already freed, otherwise deallocate the current address and set
the address to the sentinel 0.  `HeapRef.free()` (line 1709) delegates
here. -/
def managerFreeRef (ref : HeapRefState) (dealloc : List Nat) : HeapRefState × List Nat :=
  if isFreed ref then
    (ref, dealloc)
  else
    (⟨0⟩, dealloc ++ [ref.address])

/-- `NumericRef.read` for a kind `k` (e.g. `Int8Ref.read`, lines
1766-1770): assert-not-freed, then the plain manager read. -/
def numericRefRead (k : NumKind) (ref : HeapRefState) (h : HeapBuffer) : Except HeapError Int :=
  if isFreed ref then .error .useAfterFree
  else .ok (readNum k ref.address h)

/-- `NumericRef.write` (e.g. `Int8Ref.write`, lines 1778-1784): the heap is
returned unchanged when the assert fails, mutated otherwise. -/
def numericRefWrite (k : NumKind) (ref : HeapRefState) (v : Int) (h : HeapBuffer) :
    Except HeapError Unit × HeapBuffer :=
  if isFreed ref then (.error .useAfterFree, h)
  else (.ok (), writeNum k ref.address v h)

/-- `NumericRef.readAtomic`. -/
def numericRefReadAtomic (k : NumKind) (ref : HeapRefState) (h : HeapBuffer) :
    Except HeapError (Int × List AtomicOp) :=
  if isFreed ref then .error .useAfterFree
  else .ok (readNumAtomic k ref.address h)

/-- `NumericRef.writeAtomic`. -/
def numericRefWriteAtomic (k : NumKind) (ref : HeapRefState) (v : Int) (h : HeapBuffer) :
    Except HeapError Unit × HeapBuffer :=
  if isFreed ref then (.error .useAfterFree, h)
  else (.ok (), (writeNumAtomic k ref.address v h).1)

/-- The element span `[startIndex, startIndex + elementCount)` of a
`w`-byte view, as a list of element values; `subarray` clamps both bounds
to the view length as JavaScript does. -/
def viewSpan (w startIndex elementCount : Nat) (h : HeapBuffer) : List Nat :=
  let viewLength := h.byteLength / w
  let lo := min startIndex viewLength
  let hi := min (startIndex + elementCount) viewLength
  (List.range (hi - lo)).map (fun k => readUintLE w ((lo + k) * w) h)

/-- `TypedArrayRef.view` (e.g. `Int8ArrayRef.view`, lines 2523-2527):
assert-not-freed, then a subarray of the current view. -/
def typedArrayRefView (k : NumKind) (ref : HeapRefState) (elementCount : Nat) (h : HeapBuffer) :
    Except HeapError (List Nat) :=
  if isFreed ref then .error .useAfterFree
  else .ok (viewSpan (numWidth k) (ref.address / numWidth k) elementCount h)

/-- `TypedArrayRef.readAt` (e.g. `Int16ArrayRef.readAt`, lines 2661-2665):
assert-not-freed, then read at `address + index * width`. -/
def typedArrayRefReadAt (k : NumKind) (ref : HeapRefState) (index : Nat) (h : HeapBuffer) :
    Except HeapError Int :=
  if isFreed ref then .error .useAfterFree
  else .ok (readNum k (ref.address + index * numWidth k) h)

/-- `TypedArrayRef.writeAt`. -/
def typedArrayRefWriteAt (k : NumKind) (ref : HeapRefState) (index : Nat) (v : Int) (h : HeapBuffer) :
    Except HeapError Unit × HeapBuffer :=
  if isFreed ref then (.error .useAfterFree, h)
  else (.ok (), writeNum k (ref.address + index * numWidth k) v h)

/-!
## Pointer references

`PointerRef.free` (lines 2183-2193) would first free the pointed-to address
when `freePointedAddress` is requested.  However, the concrete pointer
classes `Pointer32Ref` (line 2195), `Pointer53Ref` (line 2233) and
`Pointer64Ref` (line 2271) all declare `extends NumericRef`, not
`extends PointerRef`, so they inherit plain `HeapRef.free()`, which takes
no options; an options argument passed by the caller is ignored.
-/

/-- `PointerRef.free(options)` as written in the abstract class (lines
2184-2192): read the pointer's current value (assert-not-freed applies),
free that address via the manager's raw-address overload, then free the
pointer cell itself.  `readWidth` selects the dispatched `this.read()`
width; for `Pointer32Ref` it would be `readUint32` at the cell. -/
def pointerRefFreeImpl (freePointedAddress : Bool) (readWidth : Nat) (ref : HeapRefState)
    (h : HeapBuffer) (dealloc : List Nat) : Except HeapError (HeapRefState × List Nat) :=
  if freePointedAddress then
    if isFreed ref then .error .useAfterFree
    else
      let pointedAddress := readUintLE readWidth ref.address h
      let dealloc := managerFreeAddress pointedAddress dealloc
      .ok (managerFreeRef ref dealloc)
  else .ok (managerFreeRef ref dealloc)

/-- `Pointer32Ref`'s actual `free`: the class extends `NumericRef`, so the
inherited `HeapRef.free()` runs and the options argument is ignored. -/
def pointer32RefFree (_options : Bool) (ref : HeapRefState) (_h : HeapBuffer)
    (dealloc : List Nat) : HeapRefState × List Nat :=
  managerFreeRef ref dealloc

/-- `Pointer53Ref`'s actual `free` (extends `NumericRef`, line 2233). -/
def pointer53RefFree (_options : Bool) (ref : HeapRefState) (_h : HeapBuffer)
    (dealloc : List Nat) : HeapRefState × List Nat :=
  managerFreeRef ref dealloc

/-- `Pointer64Ref`'s actual `free` (extends `NumericRef`, line 2271). -/
def pointer64RefFree (_options : Bool) (ref : HeapRefState) (_h : HeapBuffer)
    (dealloc : List Nat) : HeapRefState × List Nat :=
  managerFreeRef ref dealloc

/-!
## String codec engine

Strings are modelled as lists of Unicode code points.  The raw encoding
routines (`src/encodings/Ascii.ts`, `Utf8.ts`, `Utf16.ts`, `Utf32.ts`) are
not among the reviewed sources; they are modelled from the spec:
`encodeInto(text, destinationSpan)` encodes as many source characters as
fit in the destination span and reports `read` source characters consumed
and `written` destination elements produced.
-/

/-- Modelled from the spec: the UTF-8 encoding of one code point
(variable width, 1-4 bytes). -/
def encodeUtf8Char (cp : Nat) : List Nat :=
  if cp < 0x80 then [cp]
  else if cp < 0x800 then [0xC0 + cp / 64, 0x80 + cp % 64]
  else if cp < 0x10000 then [0xE0 + cp / 4096, 0x80 + cp / 64 % 64, 0x80 + cp % 64]
  else [0xF0 + cp / 262144, 0x80 + cp / 4096 % 64, 0x80 + cp / 64 % 64, 0x80 + cp % 64]

/-- The number of bytes the UTF-8 encoding of a text requires. -/
def utf8EncodedLength (value : List Nat) : Nat :=
  (value.map (fun cp => (encodeUtf8Char cp).length)).sum

/-- Modelled from the spec: `encodeUtf8Into(text, destinationSpan)`.
Greedily encodes whole characters while they fit in the remaining
capacity; returns the produced bytes, the count of source characters
consumed (`read`) and of destination bytes produced (`written`). -/
def encodeUtf8Into : List Nat → Nat → List Nat × Nat × Nat
  | [], _ => ([], 0, 0)
  | cp :: rest, capacity =>
    let enc := encodeUtf8Char cp
    if enc.length ≤ capacity then
      let r := encodeUtf8Into rest (capacity - enc.length)
      (enc ++ r.1, r.2.1 + 1, r.2.2 + enc.length)
    else
      ([], 0, 0)

/-- Modelled from the spec: `encodeAsciiInto(text, destinationSpan)`.
One byte per character, values restricted to 0-127 semantics on encode;
encodes as many characters as fit in the span. -/
def encodeAsciiInto (value : List Nat) (capacity : Nat) : List Nat × Nat × Nat :=
  let taken := value.take capacity
  (taken.map (fun cp => cp % 128), taken.length, taken.length)

/-- Store a list of byte values at consecutive byte offsets starting at
`addr` (the effect of an `encodeInto` against a `Uint8Array` subarray). -/
def writeBytesList : Nat → List Nat → HeapBuffer → HeapBuffer
  | _, [], h => h
  | addr, b :: bs, h => writeBytesList (addr + 1) bs (writeUintLE 1 addr b h)

/-- `WasmHeapManager.writeNullTerminatedAsciiString` (lines 1249-1259):
encode into the subarray `[address, address + value.length)` — note that no
maximum capacity is taken or enforced — then write a terminating 0 byte at
`address + written`.  The source returns nothing and cannot fail (beyond
the silent out-of-bounds no-ops). -/
def writeNullTerminatedAsciiString (address : Nat) (value : List Nat) (h : HeapBuffer) : HeapBuffer :=
  let charCount := value.length
  let regionCapacity := min charCount (h.byteLength - address)
  let (encoded, _read, written) := encodeAsciiInto value regionCapacity
  let h := writeBytesList address encoded h
  writeUintLE 1 (address + written) 0 h

/-- `WasmHeapManager.writeNullTerminatedUtf8String` (lines 1311-1332):
encode into the subarray `[address, address + maxElementCount - 1)`
(reserving one byte for the terminator), fail with a truncation error when
not all characters were consumed, otherwise write the terminating 0 byte at
`address + written` and return `written`.  The heap is returned in both
cases because the partial encode precedes the error. -/
def writeNullTerminatedUtf8String (address : Nat) (value : List Nat) (maxElementCount : Nat)
    (h : HeapBuffer) : Except HeapError Nat × HeapBuffer :=
  let regionCapacity := min (maxElementCount - 1) (h.byteLength - address)
  let (encoded, read, written) := encodeUtf8Into value regionCapacity
  let h := writeBytesList address encoded h
  if read < value.length then
    (.error .capacityExceeded, h)
  else
    (.ok written, writeUintLE 1 (address + written) 0 h)

/-- Modelled from the spec: the UTF-16 code-unit encoding of one code
point (one unit, or a surrogate pair above `0xFFFF`). -/
def encodeUtf16Char (cp : Nat) : List Nat :=
  if cp < 0x10000 then [cp]
  else [0xD800 + (cp - 0x10000) / 1024, 0xDC00 + (cp - 0x10000) % 1024]

/-- The number of UTF-16 code units of a text (JavaScript's
`string.length`). -/
def utf16EncodedLength (value : List Nat) : Nat :=
  (value.map (fun cp => (encodeUtf16Char cp).length)).sum

/-- Store a list of `w`-byte element values at consecutive element offsets
starting at byte offset `addr`. -/
def writeElemsList (w : Nat) : Nat → List Nat → HeapBuffer → HeapBuffer
  | _, [], h => h
  | addr, e :: es, h => writeElemsList w (addr + w) es (writeUintLE w addr e h)

/-- `WasmHeapManager.writeNullTerminatedUtf16String` (lines 1391-1406):
when a maximum element count is given and `value.length + 1` exceeds it,
throw before touching memory; otherwise encode into the subarray of
`value.length` uint16 elements and write a terminating 0 element.
(`value.length` is the UTF-16 unit count.) -/
def writeNullTerminatedUtf16String (address : Nat) (value : List Nat)
    (maxElementCount : Option Nat) (h : HeapBuffer) : Except HeapError Unit × HeapBuffer :=
  let stringElementCount := utf16EncodedLength value
  match maxElementCount with
  | some m =>
    if stringElementCount + 1 > m then (.error .capacityExceeded, h)
    else
      let units := (value.map encodeUtf16Char).flatten.take stringElementCount
      let h := writeElemsList 2 address units h
      (.ok (), writeUintLE 2 (address + units.length * 2) 0 h)
  | none =>
    let units := (value.map encodeUtf16Char).flatten.take stringElementCount
    let h := writeElemsList 2 address units h
    (.ok (), writeUintLE 2 (address + units.length * 2) 0 h)

/-- `WasmHeapManager.writeNullTerminatedUtf32String` (lines 1460-1475):
same shape as the UTF-16 write with one uint32 element per code point. -/
def writeNullTerminatedUtf32String (address : Nat) (value : List Nat)
    (maxElementCount : Option Nat) (h : HeapBuffer) : Except HeapError Unit × HeapBuffer :=
  let stringElementCount := value.length
  match maxElementCount with
  | some m =>
    if stringElementCount + 1 > m then (.error .capacityExceeded, h)
    else
      let h := writeElemsList 4 address value h
      (.ok (), writeUintLE 4 (address + value.length * 4) 0 h)
  | none =>
    let h := writeElemsList 4 address value h
    (.ok (), writeUintLE 4 (address + value.length * 4) 0 h)

/-!
## Null-terminator discovery
-/

/-- `TypedArray.indexOf(0)` over a span, as the index of the first
zero-valued element. -/
def indexOfZero : List Nat → Option Nat
  | [] => none
  | e :: rest => if e = 0 then some 0 else (indexOfZero rest).map (· + 1)

/-- The element span scanned by
`getElementCountOfNullTerminatedString`: from element index `startIndex`,
bounded by `maxElementCount` elements when given, to the end of the view
otherwise; `subarray` clamps both bounds to the view length. -/
def scanSpan (w startIndex : Nat) (maxElementCount : Option Nat) (h : HeapBuffer) : List Nat :=
  let viewLength := h.byteLength / w
  let lo := min startIndex viewLength
  let hi := match maxElementCount with
    | some m => min (startIndex + m) viewLength
    | none => viewLength
  (List.range (hi - lo)).map (fun k => readUintLE w ((lo + k) * w) h)

/-- `WasmHeapManager.getElementCountOfNullTerminatedString` (lines
1520-1547): scan the span for the first zero-valued element; fail with the
null-terminator-not-found error when the scan finds none. -/
def getElementCountOfNullTerminatedString (address bytesPerElement : Nat)
    (maxElementCount : Option Nat) (h : HeapBuffer) : Except HeapError Nat :=
  let startIndex := address / bytesPerElement
  let memoryRegionToScan := scanSpan bytesPerElement startIndex maxElementCount h
  match indexOfZero memoryRegionToScan with
  | none => .error .nullTerminatorNotFound
  | some result => .ok result

/-!
## String references
-/

inductive StrEncoding where
  | ascii | utf8 | utf16 | utf32
deriving DecidableEq, Repr

/-- `StringRef.bytesPerElement` per concrete class. -/
def strBytesPerElement : StrEncoding → Nat
  | .ascii => 1
  | .utf8 => 1
  | .utf16 => 2
  | .utf32 => 4

/-- The state of a `StringRef` (lines 2312-2355): address, fixed allocated
element capacity, and the encoding fixed by the concrete class. -/
structure StringRefState where
  address : Nat
  allocatedElementCount : Nat
  encoding : StrEncoding
deriving DecidableEq, Repr

/-- `NullTerminatedStringRef.encodedElementCount` (lines 2357-2363):
assert-not-freed, then scan bounded by the allocated capacity. -/
def stringRefEncodedElementCount (ref : StringRefState) (h : HeapBuffer) : Except HeapError Nat :=
  if ref.address = 0 then .error .useAfterFree
  else getElementCountOfNullTerminatedString ref.address (strBytesPerElement ref.encoding)
    (some ref.allocatedElementCount) h

/-- The `write` method of the concrete string reference classes:
assert-not-freed, then the manager-level write.  Note which wrappers pass
the reference's capacity on: only `NullTerminatedUtf8StringRef.write`
(line 2403) forwards `allocatedElementCount`; the ASCII wrapper (line
2375) calls a manager method that takes no capacity at all, and the
UTF-16/UTF-32 wrappers (lines 2433, 2467) omit the optional capacity
argument. -/
def stringRefWrite (ref : StringRefState) (value : List Nat) (h : HeapBuffer) :
    Except HeapError Unit × HeapBuffer :=
  if ref.address = 0 then (.error .useAfterFree, h)
  else
    match ref.encoding with
    | .ascii => (.ok (), writeNullTerminatedAsciiString ref.address value h)
    | .utf8 =>
      ((writeNullTerminatedUtf8String ref.address value ref.allocatedElementCount h).1.map
          (fun _ => ()),
        (writeNullTerminatedUtf8String ref.address value ref.allocatedElementCount h).2)
    | .utf16 => writeNullTerminatedUtf16String ref.address value none h
    | .utf32 => writeNullTerminatedUtf32String ref.address value none h

/-- The `read` method of the concrete string reference classes:
assert-not-freed, then terminator discovery bounded by the allocated
capacity, returning the encoded element span (whose textual decoding — the
missing `decode*` routines — consumes exactly that span). -/
def stringRefRead (ref : StringRefState) (h : HeapBuffer) : Except HeapError (List Nat) :=
  if ref.address = 0 then .error .useAfterFree
  else
    let w := strBytesPerElement ref.encoding
    (getElementCountOfNullTerminatedString ref.address w (some ref.allocatedElementCount) h).map
      (fun stringElementCount => viewSpan w (ref.address / w) stringElementCount h)

/-- `StringRef.free()` is the inherited `HeapRef.free()` on the
reference's address. -/
def stringRefFree (ref : StringRefState) (dealloc : List Nat) : StringRefState × List Nat :=
  if ref.address = 0 then (ref, dealloc)
  else ({ ref with address := 0 }, dealloc ++ [ref.address])

/-!
## Heap view cache

A buffer's identity is modelled as an id together with its byte length;
`getCurrentBuffer()` (the `heapGetter` callback) is modelled by the buffer
it currently returns.  Each cached typed view records the buffer it was
constructed from.
-/

/-- A heap buffer identity: `id` distinguishes distinct `ArrayBuffer`
objects, `len` is `byteLength`. -/
structure Buf where
  id : Nat
  len : Nat
deriving DecidableEq, Repr

inductive PollingMode where
  | never | whenEmpty | always
deriving DecidableEq, Repr

/-- The manager's cached heap and its eleven cached typed views
(fields `cachedHeapInt8` ... `cachedHeapFloat64`, lines 47-63), each
recorded as the buffer it was constructed from, plus the configured
polling mode. -/
structure CacheState where
  pollingMode : PollingMode
  cachedHeap : Buf
  cachedHeapInt8 : Buf
  cachedHeapUint8 : Buf
  cachedHeapUint8Clamped : Buf
  cachedHeapInt16 : Buf
  cachedHeapUint16 : Buf
  cachedHeapInt32 : Buf
  cachedHeapUint32 : Buf
  cachedHeapBigInt64 : Buf
  cachedHeapBigUint64 : Buf
  cachedHeapFloat32 : Buf
  cachedHeapFloat64 : Buf
deriving DecidableEq, Repr

/-- `WasmHeapManager.updateCache` (lines 1608-1626): record the new heap
and construct the complete set of eleven views from it. -/
def updateCache (s : CacheState) (newHeap : Buf) : CacheState :=
  { s with
    cachedHeap := newHeap
    cachedHeapInt8 := newHeap
    cachedHeapUint8 := newHeap
    cachedHeapUint8Clamped := newHeap
    cachedHeapInt16 := newHeap
    cachedHeapUint16 := newHeap
    cachedHeapInt32 := newHeap
    cachedHeapUint32 := newHeap
    cachedHeapBigInt64 := newHeap
    cachedHeapBigUint64 := newHeap
    cachedHeapFloat32 := newHeap
    cachedHeapFloat64 := newHeap }

/-- The constructor (line 85) calls `updateCache(heapGetter())`. -/
def initCacheState (pollingMode : PollingMode) (initialHeap : Buf) : CacheState :=
  updateCache ⟨pollingMode, initialHeap, initialHeap, initialHeap, initialHeap, initialHeap,
    initialHeap, initialHeap, initialHeap, initialHeap, initialHeap, initialHeap, initialHeap⟩
    initialHeap

/-- `WasmHeapManager.updateCacheIfNeeded` (lines 1593-1606): return
unchanged when the mode is `never`, or when it is `whenEmpty` and the
cached buffer is nonempty; otherwise fetch the current buffer
(`currentBuffer` is what `this.heapGetter()` returns now) and rebuild the
cache when the fetched buffer has nonzero length. -/
def updateCacheIfNeeded (s : CacheState) (currentBuffer : Buf) : CacheState :=
  if s.pollingMode = .never ∨ (s.pollingMode = .whenEmpty ∧ s.cachedHeap.len > 0) then
    s
  else if currentBuffer.len > 0 then
    updateCache s currentBuffer
  else
    s

/-- Whether `updateCacheIfNeeded` invokes the `heapGetter` callback at all
(the early return at lines 1596-1599 skips the fetch). -/
def pollsGetter (s : CacheState) : Bool :=
  ¬ (s.pollingMode = .never ∨ (s.pollingMode = .whenEmpty ∧ s.cachedHeap.len > 0))

/-- All eleven cached views were constructed from the cached heap buffer
(one generation). -/
def viewsCongruent (s : CacheState) : Prop :=
  s.cachedHeapInt8 = s.cachedHeap ∧ s.cachedHeapUint8 = s.cachedHeap ∧
  s.cachedHeapUint8Clamped = s.cachedHeap ∧ s.cachedHeapInt16 = s.cachedHeap ∧
  s.cachedHeapUint16 = s.cachedHeap ∧ s.cachedHeapInt32 = s.cachedHeap ∧
  s.cachedHeapUint32 = s.cachedHeap ∧ s.cachedHeapBigInt64 = s.cachedHeap ∧
  s.cachedHeapBigUint64 = s.cachedHeap ∧ s.cachedHeapFloat32 = s.cachedHeap ∧
  s.cachedHeapFloat64 = s.cachedHeap

instance (s : CacheState) : Decidable (viewsCongruent s) := by
  unfold viewsCongruent; infer_instance

/-- The getter `heapInt8` (lines 1628-1632): refresh if needed, then
return the cached view (here: the buffer the returned view projects). -/
def heapInt8Getter (s : CacheState) (currentBuffer : Buf) : CacheState × Buf :=
  let s := updateCacheIfNeeded s currentBuffer
  (s, s.cachedHeapInt8)

/-- The getter `heapUint8` (lines 1634-1638). -/
def heapUint8Getter (s : CacheState) (currentBuffer : Buf) : CacheState × Buf :=
  let s := updateCacheIfNeeded s currentBuffer
  (s, s.cachedHeapUint8)

/-- The getter `heapUint8Clamped` (lines 1640-1644). -/
def heapUint8ClampedGetter (s : CacheState) (currentBuffer : Buf) : CacheState × Buf :=
  let s := updateCacheIfNeeded s currentBuffer
  (s, s.cachedHeapUint8Clamped)

/-- The getter `heapInt16` (lines 1646-1650). -/
def heapInt16Getter (s : CacheState) (currentBuffer : Buf) : CacheState × Buf :=
  let s := updateCacheIfNeeded s currentBuffer
  (s, s.cachedHeapInt16)

/-- The getter `heapUint16` (lines 1652-1656). -/
def heapUint16Getter (s : CacheState) (currentBuffer : Buf) : CacheState × Buf :=
  let s := updateCacheIfNeeded s currentBuffer
  (s, s.cachedHeapUint16)

/-- The getter `heapInt32` (lines 1658-1662). -/
def heapInt32Getter (s : CacheState) (currentBuffer : Buf) : CacheState × Buf :=
  let s := updateCacheIfNeeded s currentBuffer
  (s, s.cachedHeapInt32)

/-- The getter `heapUint32` (lines 1664-1668). -/
def heapUint32Getter (s : CacheState) (currentBuffer : Buf) : CacheState × Buf :=
  let s := updateCacheIfNeeded s currentBuffer
  (s, s.cachedHeapUint32)

/-- The getter `heapBigInt64` (lines 1670-1674). -/
def heapBigInt64Getter (s : CacheState) (currentBuffer : Buf) : CacheState × Buf :=
  let s := updateCacheIfNeeded s currentBuffer
  (s, s.cachedHeapBigInt64)

/-- The getter `heapBigUint64` (lines 1676-1680). -/
def heapBigUint64Getter (s : CacheState) (currentBuffer : Buf) : CacheState × Buf :=
  let s := updateCacheIfNeeded s currentBuffer
  (s, s.cachedHeapBigUint64)

/-- The getter `heapFloat32` (lines 1682-1686). -/
def heapFloat32Getter (s : CacheState) (currentBuffer : Buf) : CacheState × Buf :=
  let s := updateCacheIfNeeded s currentBuffer
  (s, s.cachedHeapFloat32)

/-- The getter `heapFloat64` (lines 1688-1692). -/
def heapFloat64Getter (s : CacheState) (currentBuffer : Buf) : CacheState × Buf :=
  let s := updateCacheIfNeeded s currentBuffer
  (s, s.cachedHeapFloat64)

/-!
## Allocation gateway
-/

/-- The recognized constructor options (lines 3175-3179). -/
structure WasmHeapManagerOptions where
  clearAllocatedRegions : Bool
  pollingMode : PollingMode
  enableGarbageCollection : Bool
deriving DecidableEq, Repr

/-- `defaultWasmHeapManagerOptions` (lines 3181-3185). -/
def defaultWasmHeapManagerOptions : WasmHeapManagerOptions :=
  { clearAllocatedRegions := true
    pollingMode := .whenEmpty
    enableGarbageCollection := false }

/-- `viewUint8Array(address, count).fill(0)`: zero the byte subarray
`[address, address + count)`, clamped to the buffer length. -/
def fillZeroRange (address count : Nat) (h : HeapBuffer) : HeapBuffer :=
  { h with bytes := fun i =>
      if address ≤ i ∧ i < min (address + count) h.byteLength then 0 else h.bytes i }

/-- `WasmHeapManager.alloc` (lines 1552-1560): call the external
`allocate` capability with the byte count, zero-fill the returned span
when `clearAllocatedRegions` is enabled, and return the address the
allocator produced.  The third component is the trace of `allocate`
calls (their byte-size arguments). -/
def alloc (allocate : Nat → Nat) (clearAllocatedRegions : Bool) (allocatedByteCount : Nat)
    (h : HeapBuffer) : Nat × HeapBuffer × List Nat :=
  let address := allocate allocatedByteCount
  let h := if clearAllocatedRegions then fillZeroRange address allocatedByteCount h else h
  (address, h, [allocatedByteCount])

/-!
## String allocation (UTF-8, count overload)
-/

/-- `WasmHeapManager.wrapNullTerminatedAsciiString` with an explicit
capacity (lines 1291-1299): constructs a `NullTerminatedAsciiStringRef`. -/
def wrapNullTerminatedAsciiString (address maxElementCount : Nat) : StringRefState :=
  ⟨address, maxElementCount, .ascii⟩

/-- `WasmHeapManager.wrapNullTerminatedUtf8String` with an explicit
capacity (lines 1369-1377): constructs a `NullTerminatedUtf8StringRef`. -/
def wrapNullTerminatedUtf8String (address maxElementCount : Nat) : StringRefState :=
  ⟨address, maxElementCount, .utf8⟩

/-- The `maxElementCount` overload of
`WasmHeapManager.allocNullTerminatedUtf8String` (lines 1339-1346):
allocate `maxElementCount + 1` bytes, then wrap the address — the source
calls `wrapNullTerminatedAsciiString` there. -/
def allocNullTerminatedUtf8StringFromCount (allocate : Nat → Nat) (clearAllocatedRegions : Bool)
    (maxElementCount : Nat) (h : HeapBuffer) : StringRefState × HeapBuffer × List Nat :=
  let allocatedElementCount := maxElementCount + 1
  let (address, h, tr) := alloc allocate clearAllocatedRegions allocatedElementCount h
  (wrapNullTerminatedAsciiString address allocatedElementCount, h, tr)

/-!
## Theorems
-/

/-- A concrete 32-byte zero heap used to instantiate theorems. -/
def testHeap : HeapBuffer := ⟨fun _ => 0, 32⟩

/-- C1: freeing a live reference calls the external deallocate capability
exactly once with the reference's current address and then sets its
address to the sentinel 0; a second `free()` is a no-op (no further
deallocate call); and every subsequent `read()`, `write()`, atomic access,
indexed access or `view` access on the freed reference (numeric, pointer,
string, or typed-array — pointer references inherit the numeric accessors)
fails with the use-after-free error and leaves the heap untouched. -/
theorem free_is_once_and_use_after_free_fails (ref : HeapRefState) (dealloc : List Nat)
    (hlive : ref.address ≠ 0) :
    (managerFreeRef ref dealloc).2 = dealloc ++ [ref.address] ∧
    (managerFreeRef ref dealloc).1.address = 0 ∧
    (∀ d, managerFreeRef (managerFreeRef ref dealloc).1 d = ((managerFreeRef ref dealloc).1, d)) ∧
    (∀ (k : NumKind) (v : Int) (i elementCount : Nat) (h : HeapBuffer),
      numericRefRead k (managerFreeRef ref dealloc).1 h = .error .useAfterFree ∧
      numericRefWrite k (managerFreeRef ref dealloc).1 v h = (.error .useAfterFree, h) ∧
      numericRefReadAtomic k (managerFreeRef ref dealloc).1 h = .error .useAfterFree ∧
      numericRefWriteAtomic k (managerFreeRef ref dealloc).1 v h = (.error .useAfterFree, h) ∧
      typedArrayRefReadAt k (managerFreeRef ref dealloc).1 i h = .error .useAfterFree ∧
      typedArrayRefWriteAt k (managerFreeRef ref dealloc).1 i v h = (.error .useAfterFree, h) ∧
      typedArrayRefView k (managerFreeRef ref dealloc).1 elementCount h = .error .useAfterFree) ∧
    (∀ (cap : Nat) (enc : StrEncoding),
      (stringRefFree ⟨ref.address, cap, enc⟩ dealloc).2 = dealloc ++ [ref.address] ∧
      (stringRefFree ⟨ref.address, cap, enc⟩ dealloc).1.address = 0 ∧
      (∀ d, stringRefFree (stringRefFree ⟨ref.address, cap, enc⟩ dealloc).1 d =
        ((stringRefFree ⟨ref.address, cap, enc⟩ dealloc).1, d)) ∧
      (∀ (value : List Nat) (h : HeapBuffer),
        stringRefRead (stringRefFree ⟨ref.address, cap, enc⟩ dealloc).1 h = .error .useAfterFree ∧
        stringRefWrite (stringRefFree ⟨ref.address, cap, enc⟩ dealloc).1 value h =
          (.error .useAfterFree, h) ∧
        stringRefEncodedElementCount (stringRefFree ⟨ref.address, cap, enc⟩ dealloc).1 h =
          .error .useAfterFree)) := by
  refine ⟨?_, ?_, ?_, ?_, ?_⟩
  · simp [managerFreeRef, isFreed, hlive]
  · simp [managerFreeRef, isFreed, hlive]
  · intro d
    simp [managerFreeRef, isFreed, hlive]
  · intro k v i elementCount h
    simp [managerFreeRef, isFreed, hlive, numericRefRead, numericRefWrite, numericRefReadAtomic,
      numericRefWriteAtomic, typedArrayRefReadAt, typedArrayRefWriteAt, typedArrayRefView]
  · intro cap enc
    refine ⟨?_, ?_, ?_, ?_⟩
    · simp [stringRefFree, hlive]
    · simp [stringRefFree, hlive]
    · intro d
      simp [stringRefFree, hlive]
    · intro value h
      simp [stringRefFree, hlive, stringRefRead, stringRefWrite, stringRefEncodedElementCount]

theorem free_is_once_and_use_after_free_fails_witness :
    (⟨8⟩ : HeapRefState).address ≠ 0 ∧
    (managerFreeRef ⟨8⟩ []).2 = [8] ∧
    (managerFreeRef ⟨8⟩ []).1.address = 0 ∧
    managerFreeRef (managerFreeRef ⟨8⟩ []).1 [8] = ((managerFreeRef ⟨8⟩ []).1, [8]) ∧
    numericRefRead .int8 (managerFreeRef ⟨8⟩ []).1 testHeap = .error .useAfterFree :=
  ⟨by decide,
    (free_is_once_and_use_after_free_fails ⟨8⟩ [] (by decide)).1,
    (free_is_once_and_use_after_free_fails ⟨8⟩ [] (by decide)).2.1,
    (free_is_once_and_use_after_free_fails ⟨8⟩ [] (by decide)).2.2.1 [8],
    ((free_is_once_and_use_after_free_fails ⟨8⟩ [] (by decide)).2.2.2.1 .int8 0 0 0 testHeap).1⟩

/-- C3: for every numeric kind and every representable value, writing at
an in-bounds, width-aligned address and reading the same address returns
the value, both through the plain read/write pair and through the atomic
pair.  (Float values are their IEEE-754 bit patterns.) -/
theorem numeric_roundtrip (k : NumKind) (addr : Nat) (v : Int) (h : HeapBuffer)
    (hrep : numRepresentable k v)
    (halign : numWidth k ∣ addr)
    (hbound : addr + numWidth k ≤ h.byteLength) :
    readNum k addr (writeNum k addr v h) = v ∧
    (readNumAtomic k addr ((writeNumAtomic k addr v h).1)).1 = v := by
  cases k <;>
    obtain ⟨h1, h2⟩ := hrep <;>
    simp only [numWidth] at hbound <;>
    refine ⟨?_, ?_⟩ <;>
    simp only [readNum, writeNum, readNumAtomic, writeNumAtomic, atomicLoadSigned,
      atomicLoadUnsigned, atomicStore, readUint8Atomic, writeUint8Atomic,
      readUint8ClampedAtomic, writeUint8ClampedAtomic, readUint32Atomic, writeUint32Atomic,
      readBigUint64Atomic, writeBigUint64Atomic, readFloat32Atomic, writeFloat32Atomic,
      readFloat64Atomic, writeFloat64Atomic, uint32ToFloat32, float32ToUint32,
      bigUint64ToFloat64, float64ToBigUint64, readIntLE, clampToUint8, toUnsignedNat] <;>
    rw [readUintLE_writeUintLE _ _ _ _ hbound] <;>
    norm_num <;>
    omega

theorem numeric_roundtrip_witness :
    numRepresentable NumKind.int16 (-2) ∧
    numWidth NumKind.int16 ∣ 4 ∧
    4 + numWidth NumKind.int16 ≤ testHeap.byteLength ∧
    readNum NumKind.int16 4 (writeNum NumKind.int16 4 (-2) testHeap) = -2 ∧
    (readNumAtomic NumKind.int16 4 ((writeNumAtomic NumKind.int16 4 (-2) testHeap).1)).1 = -2 :=
  ⟨by decide, by decide, by decide,
    (numeric_roundtrip .int16 4 (-2) testHeap (by decide) (by decide) (by decide)).1,
    (numeric_roundtrip .int16 4 (-2) testHeap (by decide) (by decide) (by decide)).2⟩

/-- C6: each emulated atomic access is exactly one native integer atomic
operation on reinterpreted data.  The clamped-8 atomic store equals the
unsigned-8 atomic store of the value clamped into `[0, 255]` (clamping
before the store) and its trace is that single native store; the clamped
atomic load is the unsigned-8 atomic load.  The float32/float64 atomic
store equals the single uint32/uint64 atomic store of the value's bit
pattern, and the atomic load is a single uint32/uint64 atomic load
followed by bit reinterpretation. -/
theorem atomic_emulation_single_native_op (addr : Nat) (v : Int) (p32 p64 : Nat) (h : HeapBuffer) :
    (writeUint8ClampedAtomic addr v h = writeUint8Atomic addr (max 0 (min v 255)) h ∧
      (writeUint8ClampedAtomic addr v h).2 =
        [AtomicOp.store 1 addr (toUnsignedNat 1 (max 0 (min v 255)))] ∧
      readUint8ClampedAtomic addr h = readUint8Atomic addr h ∧
      (readUint8ClampedAtomic addr h).2 = [AtomicOp.load 1 addr]) ∧
    (writeFloat32Atomic addr p32 h = writeUint32Atomic addr (float32ToUint32 p32 : Nat) h ∧
      (writeFloat32Atomic addr p32 h).2 = [AtomicOp.store 4 addr (p32 % 2 ^ 32)] ∧
      (readFloat32Atomic addr h).1 = uint32ToFloat32 (readUint32Atomic addr h).1 ∧
      (readFloat32Atomic addr h).2 = [AtomicOp.load 4 addr]) ∧
    (writeFloat64Atomic addr p64 h = writeBigUint64Atomic addr (float64ToBigUint64 p64 : Nat) h ∧
      (writeFloat64Atomic addr p64 h).2 = [AtomicOp.store 8 addr (p64 % 2 ^ 64)] ∧
      (readFloat64Atomic addr h).1 = bigUint64ToFloat64 (readBigUint64Atomic addr h).1 ∧
      (readFloat64Atomic addr h).2 = [AtomicOp.load 8 addr]) := by
  refine ⟨⟨?_, ?_, rfl, rfl⟩, ⟨?_, ?_, rfl, rfl⟩, ⟨?_, ?_, rfl, rfl⟩⟩
  · have hclamp : clampToUint8 v = max 0 (min v 255) := by
      unfold clampToUint8
      split
      · omega
      · split <;> omega
    rw [writeUint8ClampedAtomic, hclamp]
  · have hclamp : clampToUint8 v = max 0 (min v 255) := by
      unfold clampToUint8
      split
      · omega
      · split <;> omega
    simp only [writeUint8ClampedAtomic, writeUint8Atomic, atomicStore, hclamp]
  · rfl
  · simp only [writeFloat32Atomic, writeUint32Atomic, atomicStore, toUnsignedNat,
      float32ToUint32]
    norm_num
    omega
  · rfl
  · simp only [writeFloat64Atomic, writeBigUint64Atomic, atomicStore, toUnsignedNat,
      float64ToBigUint64]
    norm_num
    omega

/-- C7: at any observation point all eleven cached typed views are
projections of one and the same heap buffer.  The invariant holds after
construction, `updateCache` establishes it for the new buffer in one
complete replacement, `updateCacheIfNeeded` preserves it, and the eleven
view getters all return a view of the one cached buffer of the refreshed
state, so no two getters can ever yield views of different buffers. -/
theorem views_single_generation (s : CacheState) (b g : Buf) (hs : viewsCongruent s) :
    viewsCongruent (initCacheState s.pollingMode b) ∧
    viewsCongruent (updateCache s b) ∧
    (updateCache s b).cachedHeap = b ∧
    viewsCongruent (updateCacheIfNeeded s g) ∧
    (heapInt8Getter s g).2 = (updateCacheIfNeeded s g).cachedHeap ∧
    (heapUint8Getter s g).2 = (updateCacheIfNeeded s g).cachedHeap ∧
    (heapUint8ClampedGetter s g).2 = (updateCacheIfNeeded s g).cachedHeap ∧
    (heapInt16Getter s g).2 = (updateCacheIfNeeded s g).cachedHeap ∧
    (heapUint16Getter s g).2 = (updateCacheIfNeeded s g).cachedHeap ∧
    (heapInt32Getter s g).2 = (updateCacheIfNeeded s g).cachedHeap ∧
    (heapUint32Getter s g).2 = (updateCacheIfNeeded s g).cachedHeap ∧
    (heapBigInt64Getter s g).2 = (updateCacheIfNeeded s g).cachedHeap ∧
    (heapBigUint64Getter s g).2 = (updateCacheIfNeeded s g).cachedHeap ∧
    (heapFloat32Getter s g).2 = (updateCacheIfNeeded s g).cachedHeap ∧
    (heapFloat64Getter s g).2 = (updateCacheIfNeeded s g).cachedHeap := by
  have hcong : viewsCongruent (updateCacheIfNeeded s g) := by
    unfold updateCacheIfNeeded
    split
    · exact hs
    · split
      · simp [updateCache, viewsCongruent]
      · exact hs
  obtain ⟨c1, c2, c3, c4, c5, c6, c7, c8, c9, c10, c11⟩ := hcong
  refine ⟨?_, ?_, rfl, ⟨c1, c2, c3, c4, c5, c6, c7, c8, c9, c10, c11⟩,
    c1, c2, c3, c4, c5, c6, c7, c8, c9, c10, c11⟩
  · simp [initCacheState, updateCache, viewsCongruent]
  · simp [updateCache, viewsCongruent]

theorem views_single_generation_witness :
    viewsCongruent (initCacheState .whenEmpty ⟨0, 16⟩) ∧
    viewsCongruent (updateCacheIfNeeded (initCacheState .whenEmpty ⟨0, 16⟩) ⟨1, 32⟩) ∧
    (heapInt8Getter (initCacheState .whenEmpty ⟨0, 16⟩) ⟨1, 32⟩).2 =
      (updateCacheIfNeeded (initCacheState .whenEmpty ⟨0, 16⟩) ⟨1, 32⟩).cachedHeap :=
  ⟨by decide,
    (views_single_generation (initCacheState .whenEmpty ⟨0, 16⟩) ⟨0, 16⟩ ⟨1, 32⟩
      (by decide)).2.2.2.1,
    (views_single_generation (initCacheState .whenEmpty ⟨0, 16⟩) ⟨0, 16⟩ ⟨1, 32⟩
      (by decide)).2.2.2.2.1⟩

/-- C5 counterexample: with `pollingMode = always`, a cached buffer of
length 4 and a fetched buffer of length 0, the fetched buffer differs in
length from the cached one, yet `updateCacheIfNeeded` leaves the cache
unchanged (no rebuild) — refuting "rebuilt if and only if the fetched
buffer differs in length from the cached one". -/
theorem polling_always_not_rebuild_iff_length_differs :
    (initCacheState .always ⟨0, 4⟩).pollingMode = .always ∧
    (⟨1, 0⟩ : Buf).len ≠ (initCacheState .always ⟨0, 4⟩).cachedHeap.len ∧
    updateCacheIfNeeded (initCacheState .always ⟨0, 4⟩) ⟨1, 0⟩ = initCacheState .always ⟨0, 4⟩ := by
  decide

/-- C5 (amended): the cache-refresh step per polling mode.  With `never`
the getter is never invoked and the views built at construction are kept.
With `whenEmpty` the current buffer is fetched only when the cached
buffer's length is 0, and the views are rebuilt exactly when the fetched
buffer has nonzero length.  With `always` the current buffer is fetched
before every access and the views are rebuilt exactly when the fetched
buffer has nonzero length — irrespective of whether it differs in length
from the cached one; a zero-length fetch leaves the old views in place. -/
theorem polling_mode_refresh_behavior (s : CacheState) (g : Buf) :
    (s.pollingMode = .never → pollsGetter s = false ∧ updateCacheIfNeeded s g = s) ∧
    (s.pollingMode = .whenEmpty →
      (s.cachedHeap.len > 0 → pollsGetter s = false ∧ updateCacheIfNeeded s g = s) ∧
      (s.cachedHeap.len = 0 → pollsGetter s = true ∧
        (g.len > 0 → updateCacheIfNeeded s g = updateCache s g) ∧
        (g.len = 0 → updateCacheIfNeeded s g = s))) ∧
    (s.pollingMode = .always → pollsGetter s = true ∧
      (g.len > 0 → updateCacheIfNeeded s g = updateCache s g) ∧
      (g.len = 0 → updateCacheIfNeeded s g = s)) := by
  refine ⟨?_, ?_, ?_⟩
  · intro hm
    simp [pollsGetter, updateCacheIfNeeded, hm]
  · intro hm
    constructor
    · intro hlen
      simp [pollsGetter, updateCacheIfNeeded, hm, hlen]
    · intro hlen
      refine ⟨?_, ?_, ?_⟩
      · simp [pollsGetter, hm, hlen]
      · intro hg
        simp [updateCacheIfNeeded, hm, hlen, hg]
      · intro hg
        simp [updateCacheIfNeeded, hm, hlen, hg]
  · intro hm
    refine ⟨?_, ?_, ?_⟩
    · simp [pollsGetter, hm]
    · intro hg
      simp [updateCacheIfNeeded, hm, hg]
    · intro hg
      simp [updateCacheIfNeeded, hm, hg]

theorem polling_mode_refresh_behavior_witness :
    (initCacheState .always ⟨0, 4⟩).pollingMode = .always ∧
    pollsGetter (initCacheState .always ⟨0, 4⟩) = true ∧
    (0 : Nat) < (⟨1, 4⟩ : Buf).len ∧
    updateCacheIfNeeded (initCacheState .always ⟨0, 4⟩) ⟨1, 4⟩ =
      updateCache (initCacheState .always ⟨0, 4⟩) ⟨1, 4⟩ :=
  ⟨by decide,
    ((polling_mode_refresh_behavior (initCacheState .always ⟨0, 4⟩) ⟨1, 4⟩).2.2 (by decide)).1,
    by decide,
    ((polling_mode_refresh_behavior (initCacheState .always ⟨0, 4⟩) ⟨1, 4⟩).2.2
      (by decide)).2.1 (by decide)⟩

/-- C9: `alloc(byteSize)` calls the external allocate capability exactly
once with `byteSize` and returns the exact address it produced.  With
`clearAllocatedRegions` enabled — the default — every byte of
`[address, address + byteSize)` is filled with zero (the fill is the byte
view's in-bounds span) and no byte outside the span changes; with the
option disabled the heap is untouched. -/
theorem alloc_zero_fill (allocate : Nat → Nat) (byteCount : Nat) (h : HeapBuffer)
    (hbound : allocate byteCount + byteCount ≤ h.byteLength) :
    (alloc allocate true byteCount h).1 = allocate byteCount ∧
    (alloc allocate true byteCount h).2.2 = [byteCount] ∧
    (∀ i, allocate byteCount ≤ i → i < allocate byteCount + byteCount →
      (alloc allocate true byteCount h).2.1.bytes i = 0) ∧
    (∀ i, i < allocate byteCount ∨ allocate byteCount + byteCount ≤ i →
      (alloc allocate true byteCount h).2.1.bytes i = h.bytes i) ∧
    alloc allocate false byteCount h = (allocate byteCount, h, [byteCount]) ∧
    defaultWasmHeapManagerOptions.clearAllocatedRegions = true := by
  refine ⟨rfl, rfl, ?_, ?_, rfl, rfl⟩
  · intro i hi₁ hi₂
    simp only [alloc, fillZeroRange, if_true]
    rw [if_pos (by omega)]
  · intro i hout
    simp only [alloc, fillZeroRange, if_true]
    rw [if_neg (by omega)]

theorem alloc_zero_fill_witness :
    (fun _ => 8 : Nat → Nat) 4 + 4 ≤ testHeap.byteLength ∧
    (alloc (fun _ => 8) true 4 testHeap).1 = 8 ∧
    (alloc (fun _ => 8) true 4 testHeap).2.2 = [4] ∧
    (alloc (fun _ => 8) true 4 testHeap).2.1.bytes 9 = 0 :=
  ⟨by decide,
    (alloc_zero_fill (fun _ => 8) 4 testHeap (by decide)).1,
    (alloc_zero_fill (fun _ => 8) 4 testHeap (by decide)).2.1,
    (alloc_zero_fill (fun _ => 8) 4 testHeap (by decide)).2.2.1 9 (by decide) (by decide)⟩

theorem indexOfZero_spec (l : List Nat) : ∀ (n : Nat), indexOfZero l = some n →
    l[n]? = some 0 ∧ ∀ i, i < n → l[i]? ≠ some 0 := by
  induction l with
  | nil => intro n hn; simp [indexOfZero] at hn
  | cons e rest ih =>
    intro n hn
    unfold indexOfZero at hn
    by_cases he : e = 0
    · simp [he] at hn
      subst hn
      simp [he]
    · simp [he] at hn
      obtain ⟨m, hm, hmn⟩ := hn
      obtain ⟨hget, hbefore⟩ := ih m hm
      subst hmn
      refine ⟨by simpa using hget, ?_⟩
      intro i hi
      match i with
      | 0 => simpa using he
      | j + 1 =>
        have := hbefore j (by omega)
        simpa using this

theorem indexOfZero_none_iff (l : List Nat) : indexOfZero l = none ↔ ¬ (0 ∈ l) := by
  induction l with
  | nil => simp [indexOfZero]
  | cons e rest ih =>
    unfold indexOfZero
    by_cases he : e = 0
    · simp [he]
    · simp only [he, if_false, Option.map_eq_none', ih, List.mem_cons]
      constructor
      · intro hn hmem
        rcases hmem with hmem | hmem
        · exact he hmem.symm
        · exact hn hmem
      · intro hn hmem
        exact hn (Or.inr hmem)

theorem scanSpan_length_le (w startIndex C : Nat) (h : HeapBuffer) :
    (scanSpan w startIndex (some C) h).length ≤ C := by
  simp only [scanSpan, List.length_map, List.length_range]
  omega

theorem elementCount_lt_of_bounded (address bytesPerElement C n : Nat) (h : HeapBuffer)
    (hok : getElementCountOfNullTerminatedString address bytesPerElement (some C) h = .ok n) :
    n < C := by
  simp only [getElementCountOfNullTerminatedString] at hok
  cases hidx : indexOfZero (scanSpan bytesPerElement (address / bytesPerElement) (some C) h) with
  | none => rw [hidx] at hok; cases hok
  | some m =>
    rw [hidx] at hok
    cases hok
    have hget := (indexOfZero_spec _ _ hidx).1
    have hlt : n < (scanSpan bytesPerElement (address / bytesPerElement) (some C) h).length := by
      by_contra hge
      rw [List.getElem?_eq_none (by omega)] at hget
      cases hget
    have := scanSpan_length_le bytesPerElement (address / bytesPerElement) C h
    omega

/-- C8: null-terminator discovery at `address` with element width `w`
scans the element span starting at `address / w` (bounded to
`maxElementCount` elements when given, to the end of the heap's element
view otherwise, with `subarray` clamping) and returns ok exactly the
number of elements strictly before the first zero-valued element; when no
zero element exists in the scanned span it fails with the
null-terminator-not-found error.  Consequently a live null-terminated
string reference's `encodedElementCount` is the index of the first zero
element of its bounded span and lies below `allocatedElementCount`. -/
theorem null_terminator_discovery (address bytesPerElement n : Nat)
    (maxElementCount : Option Nat) (h : HeapBuffer) :
    (getElementCountOfNullTerminatedString address bytesPerElement maxElementCount h = .ok n →
      (scanSpan bytesPerElement (address / bytesPerElement) maxElementCount h)[n]? = some 0 ∧
      (∀ i, i < n →
        (scanSpan bytesPerElement (address / bytesPerElement) maxElementCount h)[i]? ≠ some 0) ∧
      (∀ C, maxElementCount = some C → n < C)) ∧
    (getElementCountOfNullTerminatedString address bytesPerElement maxElementCount h =
        .error .nullTerminatorNotFound ↔
      ¬ (0 ∈ scanSpan bytesPerElement (address / bytesPerElement) maxElementCount h)) ∧
    (∀ (ref : StringRefState), ref.address ≠ 0 →
      stringRefEncodedElementCount ref h = .ok n →
      (scanSpan (strBytesPerElement ref.encoding)
          (ref.address / strBytesPerElement ref.encoding)
          (some ref.allocatedElementCount) h)[n]? = some 0 ∧
        n < ref.allocatedElementCount) := by
  refine ⟨?_, ?_, ?_⟩
  · intro hok
    simp only [getElementCountOfNullTerminatedString] at hok
    cases hidx : indexOfZero (scanSpan bytesPerElement (address / bytesPerElement) maxElementCount h) with
    | none => rw [hidx] at hok; cases hok
    | some m =>
      rw [hidx] at hok
      cases hok
      obtain ⟨hget, hbefore⟩ := indexOfZero_spec _ _ hidx
      refine ⟨hget, hbefore, ?_⟩
      intro C hC
      subst hC
      refine elementCount_lt_of_bounded address bytesPerElement C n h ?_
      simp only [getElementCountOfNullTerminatedString]
      rw [hidx]
  · simp only [getElementCountOfNullTerminatedString]
    cases hidx : indexOfZero (scanSpan bytesPerElement (address / bytesPerElement) maxElementCount h) with
    | none =>
      simp only [true_iff]
      exact (indexOfZero_none_iff _).mp hidx
    | some m =>
      constructor
      · intro hcontra; cases hcontra
      · intro hnomem
        rw [(indexOfZero_none_iff _).mpr hnomem] at hidx
        cases hidx
  · intro ref hlive hok
    unfold stringRefEncodedElementCount at hok
    rw [if_neg hlive] at hok
    refine ⟨?_, ?_⟩
    · simp only [getElementCountOfNullTerminatedString] at hok
      cases hidx : indexOfZero (scanSpan (strBytesPerElement ref.encoding)
          (ref.address / strBytesPerElement ref.encoding) (some ref.allocatedElementCount) h) with
      | none => rw [hidx] at hok; cases hok
      | some m =>
        rw [hidx] at hok
        cases hok
        exact (indexOfZero_spec _ _ hidx).1
    · exact elementCount_lt_of_bounded _ _ _ _ _ hok

/-- A concrete heap whose bytes are all 7 except a zero at byte offset 10,
used to instantiate the scan and string theorems. -/
def testHeapZeroAt10 : HeapBuffer := ⟨fun i => if i = 10 then 0 else 7, 32⟩

theorem null_terminator_discovery_witness :
    getElementCountOfNullTerminatedString 8 1 (some 4) testHeapZeroAt10 = .ok 2 ∧
    (scanSpan 1 8 (some 4) testHeapZeroAt10)[2]? = some 0 ∧
    (2 : Nat) < 4 :=
  ⟨by rfl,
    ((null_terminator_discovery 8 1 2 (some 4) testHeapZeroAt10).1 (by rfl)).1,
    ((null_terminator_discovery 8 1 2 (some 4) testHeapZeroAt10).1 (by rfl)).2.2 4 rfl⟩

theorem encodeUtf8Into_spec (value : List Nat) : ∀ (capacity : Nat),
    (encodeUtf8Into value capacity).1.length ≤ capacity ∧
    (encodeUtf8Into value capacity).2.1 ≤ value.length ∧
    ((encodeUtf8Into value capacity).2.1 = value.length →
      utf8EncodedLength value ≤ capacity) ∧
    (encodeUtf8Into value capacity).2.2 = (encodeUtf8Into value capacity).1.length := by
  induction value with
  | nil =>
    intro capacity
    simp [encodeUtf8Into, utf8EncodedLength]
  | cons cp rest ih =>
    intro capacity
    simp only [encodeUtf8Into]
    by_cases hfit : (encodeUtf8Char cp).length ≤ capacity
    · obtain ⟨ih1, ih2, ih3, ih4⟩ := ih (capacity - (encodeUtf8Char cp).length)
      rw [if_pos hfit]
      simp only [List.length_append, List.length_cons]
      refine ⟨by omega, by omega, ?_, by omega⟩
      intro hread
      have hall : (encodeUtf8Into rest (capacity - (encodeUtf8Char cp).length)).2.1 =
          rest.length := by
        omega
      have hlen := ih3 hall
      simp only [utf8EncodedLength, List.map_cons, List.sum_cons]
      simp only [utf8EncodedLength] at hlen
      omega
    · rw [if_neg hfit]
      refine ⟨by simp, by simp, ?_, by simp⟩
      intro hread
      simp only [List.length_cons] at hread
      simp at hread

theorem writeBytesList_outside (bs : List Nat) : ∀ (addr : Nat) (h : HeapBuffer) (i : Nat),
    i < addr ∨ addr + bs.length ≤ i →
    (writeBytesList addr bs h).bytes i = h.bytes i := by
  induction bs with
  | nil => intro addr h i _; rfl
  | cons b rest ih =>
    intro addr h i hout
    simp only [writeBytesList]
    rw [ih (addr + 1) _ i (by simp at hout ⊢; omega)]
    exact writeUintLE_outside 1 addr b h i (by simp at hout; omega)

theorem writeBytesList_byteLength (bs : List Nat) : ∀ (addr : Nat) (h : HeapBuffer),
    (writeBytesList addr bs h).byteLength = h.byteLength := by
  induction bs with
  | nil => intro addr h; rfl
  | cons b rest ih =>
    intro addr h
    simp only [writeBytesList]
    rw [ih, byteLength_writeUintLE]

/-- C2 counterexample input: a 32-byte heap whose bytes are all 7. -/
def testHeap7 : HeapBuffer := ⟨fun _ => 7, 32⟩

/-- C2 counterexample: an ASCII string reference with capacity `C = 1` at
address 8.  Writing the one-character string `"A"` (code point 65; its
encoding requires `N = 1` element, so `N + 1 > C`) does not fail — the
ASCII write path takes no capacity at all — and it stores the terminator
at byte offset `9 = address + C`, i.e. at the capacity boundary, which the
claim asserts can never happen. -/
theorem ascii_write_unchecked_counterexample :
    (stringRefWrite ⟨8, 1, .ascii⟩ [65] testHeap7).1 = .ok () ∧
    (stringRefWrite ⟨8, 1, .ascii⟩ [65] testHeap7).1 ≠ .error .capacityExceeded ∧
    (stringRefWrite ⟨8, 1, .ascii⟩ [65] testHeap7).2.bytes 9 = 0 ∧
    testHeap7.bytes 9 = 7 := by
  refine ⟨rfl, ?_, rfl, rfl⟩
  intro hcontra
  rw [show (stringRefWrite ⟨8, 1, .ascii⟩ [65] testHeap7).1 = .ok () from rfl] at hcontra
  cases hcontra

/-- C2 (amended): only the UTF-8 write path enforces the reference's
capacity.  For a UTF-8 string reference with allocated capacity `C ≥ 1`
elements, writing a string whose encoding requires `N` bytes with
`N + 1 > C` fails with the capacity-exceeded (truncation) error, and the
write stores nothing at or beyond the capacity boundary (nor below the
start address).  The ASCII, UTF-16 and UTF-32 reference writes perform no
capacity check: on a live reference they always succeed. -/
theorem utf8_write_capacity_enforced (address C : Nat) (value : List Nat) (h : HeapBuffer)
    (hC : 1 ≤ C)
    (hover : utf8EncodedLength value + 1 > C) :
    (writeNullTerminatedUtf8String address value C h).1 = .error .capacityExceeded ∧
    (∀ i, i < address ∨ address + C ≤ i →
      (writeNullTerminatedUtf8String address value C h).2.bytes i = h.bytes i) ∧
    (∀ (ref : StringRefState), ref.address = address → ref.address ≠ 0 →
      ref.allocatedElementCount = C → ref.encoding = .utf8 →
      (stringRefWrite ref value h).1 = .error .capacityExceeded ∧
      (∀ i, i < address ∨ address + C ≤ i →
        (stringRefWrite ref value h).2.bytes i = h.bytes i)) ∧
    (∀ (ref : StringRefState) (v : List Nat) (hp : HeapBuffer), ref.address ≠ 0 →
      (ref.encoding = .ascii ∨ ref.encoding = .utf16 ∨ ref.encoding = .utf32) →
      (stringRefWrite ref v hp).1 = .ok ()) := by
  have hcap : min (C - 1) (h.byteLength - address) < utf8EncodedLength value := by omega
  obtain ⟨hlen, hread, hfull, hwritten⟩ :=
    encodeUtf8Into_spec value (min (C - 1) (h.byteLength - address))
  have hlt : (encodeUtf8Into value (min (C - 1) (h.byteLength - address))).2.1 < value.length := by
    rcases Nat.lt_or_ge (encodeUtf8Into value (min (C - 1) (h.byteLength - address))).2.1
        value.length with hc | hc
    · exact hc
    · have := hfull (by omega)
      omega
  have herr : (writeNullTerminatedUtf8String address value C h).1 = .error .capacityExceeded := by
    simp only [writeNullTerminatedUtf8String]
    rw [if_pos hlt]
  have houtside : ∀ i, i < address ∨ address + C ≤ i →
      (writeNullTerminatedUtf8String address value C h).2.bytes i = h.bytes i := by
    intro i hi
    simp only [writeNullTerminatedUtf8String]
    rw [if_pos hlt]
    exact writeBytesList_outside _ address h i (by omega)
  refine ⟨herr, houtside, ?_, ?_⟩
  · intro ref href hlive hrefC hrefenc
    rw [href] at hlive
    constructor
    · simp only [stringRefWrite, href, hrefC, hrefenc, if_neg hlive]
      rw [herr]
      rfl
    · intro i hi
      simp only [stringRefWrite, href, hrefC, hrefenc, if_neg hlive]
      exact houtside i hi
  · intro ref v hp hlive henc
    rcases henc with henc | henc | henc <;>
      simp only [stringRefWrite, henc, if_neg hlive] <;>
      simp only [writeNullTerminatedUtf16String, writeNullTerminatedUtf32String]

theorem utf8_write_capacity_enforced_witness :
    (1 : Nat) ≤ 1 ∧
    utf8EncodedLength [65] + 1 > 1 ∧
    (writeNullTerminatedUtf8String 8 [65] 1 testHeap7).1 = .error .capacityExceeded ∧
    (writeNullTerminatedUtf8String 8 [65] 1 testHeap7).2.bytes 9 = testHeap7.bytes 9 :=
  ⟨by decide, by decide,
    (utf8_write_capacity_enforced 8 1 [65] testHeap7 (by decide) (by decide)).1,
    (utf8_write_capacity_enforced 8 1 [65] testHeap7 (by decide) (by decide)).2.1 9
      (by decide)⟩

/-- A concrete heap storing the pointer value 16 (little-endian) at byte
offset 8. -/
def testHeapPtr : HeapBuffer := ⟨fun i => if i = 8 then 16 else 0, 32⟩

/-- C4: a live pointer reference at address 8 whose stored value is the
address 16, freed with `freePointedAddress: true`, produces exactly one
deallocation call — for the pointer cell's own address only — in all three
flavors, because `Pointer32Ref`, `Pointer53Ref` and `Pointer64Ref` extend
`NumericRef` rather than `PointerRef` and therefore inherit the optionless
`HeapRef.free()`.  The claimed two-call trace `[16, 8]` is not produced;
it is exactly what the never-inherited `PointerRef.free` body would have
produced at the same input. -/
theorem pointer_free_options_ignored :
    (pointer32RefFree true ⟨8⟩ testHeapPtr []).2 = [8] ∧
    (pointer53RefFree true ⟨8⟩ testHeapPtr []).2 = [8] ∧
    (pointer64RefFree true ⟨8⟩ testHeapPtr []).2 = [8] ∧
    ([8] : List Nat) ≠ [16, 8] ∧
    pointerRefFreeImpl true 4 ⟨8⟩ testHeapPtr [] = .ok (⟨0⟩, [16, 8]) := by
  refine ⟨rfl, rfl, rfl, by decide, rfl⟩

/-- C10: the `maxElementCount` overload of `allocNullTerminatedUtf8String`
wraps the allocated address with `wrapNullTerminatedAsciiString` (source
line 1346), so the returned reference is of the ASCII kind, not the UTF-8
kind: its write performs no capacity check and succeeds where the
reference produced by the string-valued overload (a genuine UTF-8
reference of the same address and capacity) fails with the
capacity-exceeded truncation error. -/
theorem alloc_utf8_count_overload_wraps_ascii :
    (allocNullTerminatedUtf8StringFromCount (fun _ => 8) true 0 testHeap7).1 =
      wrapNullTerminatedAsciiString 8 1 ∧
    (allocNullTerminatedUtf8StringFromCount (fun _ => 8) true 0 testHeap7).1.encoding =
      .ascii ∧
    (allocNullTerminatedUtf8StringFromCount (fun _ => 8) true 0 testHeap7).1.encoding ≠
      .utf8 ∧
    (stringRefWrite (allocNullTerminatedUtf8StringFromCount (fun _ => 8) true 0 testHeap7).1
      [65] (allocNullTerminatedUtf8StringFromCount (fun _ => 8) true 0 testHeap7).2.1).1 =
      .ok () ∧
    (stringRefWrite (wrapNullTerminatedUtf8String 8 1) [65]
      (allocNullTerminatedUtf8StringFromCount (fun _ => 8) true 0 testHeap7).2.1).1 =
      .error .capacityExceeded := by
  refine ⟨rfl, rfl, by decide, rfl, rfl⟩
